import Mathlib

/-!
Verification of `MeshRenumbering::renumber_by_color`
(src/dolfin/mesh/MeshRenumbering.cpp).

The mesh state is embedded shallowly.  Fields kept:
  * `connections`   — the flat cell-vertex connectivity buffer, `topology(D,0)`;
  * `coordinates`   — the flat vertex coordinate buffer (element type `α`,
    since the algorithm only copies coordinate values and never computes
    with them);
  * `aux_connectivity` — an abstract stand-in for every incidence relation
    other than cell-vertex; `Mesh::clean` empties it;
  * `cell_colors`    — the "cell colors" mesh function (`none` = absent);
  * `num_colored_cells` — the "num colored cells" array (`none` = absent);
  * `colored_cells`  — the per-color "colored cells" arrays, indexed by color
    (`none` entries = absent array).

Cell-vertex access (`Cell::entities(0)` / `num_entities(0)`) is not part of
the fragment.  Modelled from the spec: each cell has a constant arity
(`verticesPerCell`) and cell `c`'s vertex tuple occupies
`connections[c*arity .. (c+1)*arity)`; a vertex `v`'s coordinate vector
occupies `coordinates[v*gdim .. (v+1)*gdim)` (the latter layout is visible
in the source at lines 97-99).  `Mesh::clean` is likewise modelled from the
spec (§4.2): it clears every incidence relation other than cell-vertex.

The scratch arrays `new_connections` / `new_coordinates` are allocated
uninitialized in the source; the commit step copies `connections_size`
(resp. `coordinates_size`) elements from them unconditionally, so positions
the sweep never wrote are read as indeterminate memory.  The model makes
that explicit with two oracles `junkC : Nat → Nat` and `junkX : Nat → α`
giving the initial contents of the scratch arrays.

Error outcomes: `error(...)` calls and `assert(...)` statements are both
modelled as abort-with-error, returning the mesh state reached at that
point.  Two asserts in the source are ill-formed: line 67 reads
`assert(num_collored_cells)` (an undeclared identifier; the declared
variable is `num_colored_cells`) and line 128 compares
`colored_cells->size()` with `num_colored_cells[color]`, indexing the
*pointer* `num_colored_cells` instead of the vector `(*num_colored_cells)`
that line 129 uses.  Assert-enabled builds of this file therefore do not
compile, and in the one configuration that compiles (NDEBUG) every assert,
the well-formed ones at lines 69, 76 and 105 included, is compiled away:
the compiled program performs none of these checks (an absent counts array
is dereferenced as null at line 68, a zero color count falls through to
the completeness check, inconsistent metadata is written past the list's
end).  The model encodes the checks the asserts evidently intend; the
divergences between that intent and the compiled program are recorded
against claims C6 and C8.
The per-color presence assert (line 76) fires inside the sweep in the
source; the model hoists it before the sweep (`firstMissingColor`), which
is observationally identical because the sweep writes only transient
scratch and both abort at the first missing color with the same mesh state.
-/

/-- Shallow embedding of the mesh state visible to `renumber_by_color`. -/
structure Mesh (α : Type) where
  num_vertices : Nat
  gdim : Nat
  arity : Nat
  connections : List Nat
  coordinates : List α
  aux_connectivity : List Nat
  cell_colors : Option (List Nat)
  num_colored_cells : Option (List Nat)
  colored_cells : List (Option (List Nat))
deriving DecidableEq

/-- `mesh.data().array("colored cells", color)`. -/
def coloredCellsAt {α : Type} (m : Mesh α) (color : Nat) : Option (List Nat) :=
  m.colored_cells.getD color none

/-- Modelled from the spec: cell `c`'s ordered vertex tuple, read from the
flat cell-vertex connectivity buffer at `[c*arity, (c+1)*arity)`
(`Cell::entities(0)` with constant arity `verticesPerCell`). -/
def cellVertices {α : Type} (m : Mesh α) (c : Nat) : List Nat :=
  (m.connections.drop (c * m.arity)).take m.arity

/-- Modelled from the spec (§4.2): `Mesh::clean` clears every incidence
relation other than cell-vertex (source line 45). -/
def clean {α : Type} (m : Mesh α) : Mesh α :=
  { m with aux_connectivity := [] }

/-- Transient state of the vertex-renumbering sweep: the new-vertex-index
map (`new_vertex_indices`, `none` = the `-1` sentinel), the rewritten
connectivity scratch written so far, the rewritten coordinate scratch
written so far, and `current_vertex`. -/
structure SweepState (α : Type) where
  nvi : List (Option Nat)
  conn : List Nat
  crd : List α
  cv : Nat

/-- Body of the innermost loop (source lines 89-107): if the vertex is
unassigned, copy its coordinate chunk to position `current_vertex` and
assign it index `current_vertex`; then append its (now assigned) new index
to the connectivity scratch. -/
def visitVertex {α : Type} (gdim : Nat) (coordinates : List α)
    (s : SweepState α) (vertex_index : Nat) : SweepState α :=
  let s' :=
    if s.nvi.getD vertex_index none = none then
      { s with
        crd := s.crd ++ ((coordinates.drop (vertex_index * gdim)).take gdim),
        nvi := s.nvi.set vertex_index (some s.cv),
        cv := s.cv + 1 }
    else s
  { s' with conn := s'.conn ++ [(s'.nvi.getD vertex_index none).getD 0] }

/-- One cell of the sweep (source lines 79-108). -/
def sweepCell {α : Type} (m : Mesh α) (s : SweepState α) (c : Nat) : SweepState α :=
  (cellVertices m c).foldl (visitVertex m.gdim m.coordinates) s

/-- Initial sweep state: all vertices unassigned (source lines 62-63, 70-71). -/
def initSweep {α : Type} (m : Mesh α) : SweepState α :=
  ⟨List.replicate m.num_vertices none, [], [], 0⟩

/-- The full color-by-color, cell-by-cell sweep (source lines 72-109). -/
def colorSweep {α : Type} (m : Mesh α) (num_colors : Nat) : SweepState α :=
  (List.range num_colors).foldl
    (fun s color => ((coloredCellsAt m color).getD []).foldl (sweepCell m) s)
    (initSweep m)

/-- First color whose "colored cells" array is absent (the per-color assert
at source line 76, hoisted; see the header comment). -/
def firstMissingColor {α : Type} (m : Mesh α) (num_colors : Nat) : Option Nat :=
  (List.range num_colors).find? (fun color => (coloredCellsAt m color).isNone)

/-- The failure conditions of `renumber_by_color`, one per `error`/`assert`
site (spec §7 names the first four `PreconditionError`, the fifth
`RenumberingIncompleteError`, the last `MetadataInconsistencyError`). -/
inductive RErr
  | notColored
  | missingNumColoredCells
  | zeroColors
  | missingColoredCells (color : Nat)
  | renumberingIncomplete
  | metadataInconsistency (color : Nat)
deriving DecidableEq

/-- The inner metadata loop for one color (source lines 129-134): entry `i`
of the color's cell list and label slot `current_cell` are overwritten,
`current_cell` advancing by one per iteration.  Returns the updated cell
list, the updated label array and the advanced counter. -/
def assignCells (color count : Nat) (cc labels : List Nat) (cur : Nat) :
    List Nat × List Nat × Nat :=
  (List.range count).foldl
    (fun p i => (p.1.set i p.2.2, p.2.1.set p.2.2 color, p.2.2 + 1))
    (cc, labels, cur)

/-- The metadata update (source lines 121-135), walking colors in ascending
order; the length check is the (intended) assert at line 128, and failure
aborts with the colors processed so far already written back. -/
def updateColors {α : Type} : Mesh α → List Nat → Nat → Nat → Option RErr × Mesh α
  | m, [], _, _ => (none, m)
  | m, count :: rest, color, cur =>
    let cc := (coloredCellsAt m color).getD []
    if cc.length = count then
      let r := assignCells color count cc (m.cell_colors.getD []) cur
      let m' := { m with
        colored_cells := m.colored_cells.set color (some r.1),
        cell_colors := some r.2.1 }
      updateColors m' rest (color + 1) (cur + count)
    else
      (some (.metadataInconsistency color), m)

/-- `MeshRenumbering::renumber_by_color` (source lines 21-136).  `junkC` and
`junkX` give the indeterminate initial contents of the two scratch arrays
(see the header comment).  Returns the error raised (if any) together with
the mesh state at return/abort. -/
def renumber_by_color {α : Type} (junkC : Nat → Nat) (junkX : Nat → α)
    (m : Mesh α) : Option RErr × Mesh α :=
  match m.cell_colors with
  | none => (some .notColored, m)
  | some _ =>
    let m1 := clean m
    let connections_size := m1.connections.length
    let coordinates_size := m1.num_vertices * m1.gdim
    match m1.num_colored_cells with
    | none => (some .missingNumColoredCells, m1)
    | some counts =>
      let num_colors := counts.length
      if num_colors = 0 then (some .zeroColors, m1)
      else
        match firstMissingColor m1 num_colors with
        | some c => (some (.missingColoredCells c), m1)
        | none =>
          let s := colorSweep m1 num_colors
          if s.nvi.any (fun o => o.isNone) then
            (some .renumberingIncomplete, m1)
          else
            let new_connections := (List.range connections_size).map
              (fun i => s.conn.getD i (junkC i))
            let new_coordinates := (List.range coordinates_size).map
              (fun i => s.crd.getD i (junkX i))
            let m2 := { m1 with
              connections := new_connections,
              coordinates := new_coordinates }
            updateColors m2 counts 0 0

/-- Number of colors: size of the "num colored cells" array (source line 68). -/
def numColors {α : Type} (m : Mesh α) : Nat :=
  (m.num_colored_cells.getD []).length

/-- The new-vertex-index map produced by the sweep (the transient
`new_vertex_indices` as it stands at the completeness check). -/
def renumberMap {α : Type} (m : Mesh α) : List (Option Nat) :=
  (colorSweep (clean m) (numColors m)).nvi

/-- The new index of vertex `v` (total: 0 if unassigned). -/
def newVertexIndex {α : Type} (m : Mesh α) (v : Nat) : Nat :=
  ((renumberMap m).getD v none).getD 0

/-- The old cell indices in color-sweep order. -/
def cellOrder {α : Type} (m : Mesh α) : List Nat :=
  (List.range (numColors m)).flatMap (fun color => (coloredCellsAt m color).getD [])

/-- The sequence of vertex occurrences the sweep visits, flattened. -/
def visitList {α : Type} (m : Mesh α) : List Nat :=
  (cellOrder m).flatMap (cellVertices m)

/-- Invariant of the vertex-renumbering sweep over a mesh with `n` vertices,
geometric dimension `g` and original coordinate buffer `co`: the index map
has size `n`; every assigned index is below `current_vertex`; no index is
assigned twice; every index below `current_vertex` is assigned to some
vertex; the coordinate scratch holds `current_vertex` chunks; and the chunk
at an assigned index equals the owning vertex's original chunk. -/
def SweepInv {α : Type} (n g : Nat) (co : List α) (s : SweepState α) : Prop :=
  s.nvi.length = n ∧
  (∀ v k, s.nvi.getD v none = some k → k < s.cv) ∧
  (∀ v w k, s.nvi.getD v none = some k → s.nvi.getD w none = some k → v = w) ∧
  (∀ k, k < s.cv → ∃ v, v < n ∧ s.nvi.getD v none = some k) ∧
  s.crd.length = s.cv * g ∧
  (∀ v k, s.nvi.getD v none = some k →
    (s.crd.drop (k * g)).take g = (co.drop (v * g)).take g)

/-- The spec's scale example (§8): 2 colors, color 0 = cells [2,0], color 1 =
cells [1]; cell 0 = (v0,v1,v2), cell 1 = (v2,v3,v4), cell 2 = (v3,v1,v0). -/
def mshC9 : Mesh Nat :=
  { num_vertices := 5, gdim := 1, arity := 3,
    connections := [0, 1, 2, 2, 3, 4, 3, 1, 0],
    coordinates := [10, 11, 12, 13, 14],
    aux_connectivity := [],
    cell_colors := some [0, 1, 0],
    num_colored_cells := some [2, 1],
    colored_cells := [some [2, 0], some [1]] }

/-- The spec's completeness-failure scenario (§8): 5 vertices, the colored
cells reference only vertices 0-3, vertex 4 has no incident colored cell. -/
def mshIncomplete : Mesh Nat :=
  { num_vertices := 5, gdim := 1, arity := 3,
    connections := [0, 1, 2, 1, 2, 3],
    coordinates := [10, 11, 12, 13, 14],
    aux_connectivity := [],
    cell_colors := some [0, 1],
    num_colored_cells := some [1, 1],
    colored_cells := [some [0], some [1]] }

/-- A colored mesh carrying a non-cell-vertex incidence relation, whose
color partition covers no cell, so the completeness check fails. -/
def mshAuxIncomplete : Mesh Nat :=
  { num_vertices := 1, gdim := 1, arity := 1,
    connections := [],
    coordinates := [9],
    aux_connectivity := [1],
    cell_colors := some [],
    num_colored_cells := some [0],
    colored_cells := [some []] }

/-- An uncolored mesh (no "cell colors" function). -/
def mshUncolored : Mesh Nat :=
  { num_vertices := 2, gdim := 1, arity := 1,
    connections := [0, 1],
    coordinates := [5, 6],
    aux_connectivity := [3],
    cell_colors := none,
    num_colored_cells := some [2],
    colored_cells := [some [0, 1]] }

/-- A colored mesh with non-cell-vertex incidence data but no
"num colored cells" array. -/
def mshNoCounts : Mesh Nat :=
  { num_vertices := 2, gdim := 1, arity := 1,
    connections := [0, 1],
    coordinates := [5, 6],
    aux_connectivity := [2],
    cell_colors := some [0, 0],
    num_colored_cells := none,
    colored_cells := [some [0, 1]] }

/-- A colored mesh whose "num colored cells" array is present but empty
(color count zero). -/
def mshZeroColors : Mesh Nat :=
  { num_vertices := 2, gdim := 1, arity := 1,
    connections := [0, 1],
    coordinates := [5, 6],
    aux_connectivity := [4],
    cell_colors := some [0, 0],
    num_colored_cells := some [],
    colored_cells := [] }

/-- A colored mesh whose color 0 stores two cells `[1, 0]` while its
recorded cell count is 1: the sweep completes, the buffers commit (in
reversed order, so the commit is observable), and the metadata length
check then fails. -/
def mshBadCount : Mesh Nat :=
  { num_vertices := 2, gdim := 1, arity := 1,
    connections := [0, 1],
    coordinates := [7, 8],
    aux_connectivity := [],
    cell_colors := some [0, 0],
    num_colored_cells := some [1],
    colored_cells := [some [1, 0]] }

/-- A mesh whose color partition lists only cell 0 out of two cells with
identical vertex tuples: every vertex is renumbered, so the completeness
check passes, but the sweep writes only half of the connectivity scratch
and the commit copies the full `connections_size`, exposing the
uninitialized tail. -/
def mshUnderfilled : Mesh Nat :=
  { num_vertices := 2, gdim := 1, arity := 2,
    connections := [0, 1, 0, 1],
    coordinates := [7, 8],
    aux_connectivity := [],
    cell_colors := some [0, 0],
    num_colored_cells := some [1],
    colored_cells := [some [0]] }

/-! ### List helper lemmas -/

theorem getD_replicate_none {γ : Type} (n v : Nat) :
    (List.replicate n (none : Option γ)).getD v none = none := by
  rcases Nat.lt_or_ge v n with h | h
  · rw [List.getD_eq_getElem _ _ (by simpa using h)]; simp
  · exact List.getD_eq_default _ _ (by simpa using h)

theorem getD_set_self {γ : Type} (l : List γ) (v : Nat) (a d : γ) (h : v < l.length) :
    (l.set v a).getD v d = a := by
  rw [List.getD_eq_getElem _ _ (by simpa using h)]
  exact List.getElem_set_self (by simpa using h)

theorem getD_set_ne {γ : Type} (l : List γ) (v w : Nat) (a d : γ) (h : v ≠ w) :
    (l.set v a).getD w d = l.getD w d := by
  rcases Nat.lt_or_ge w l.length with hw | hw
  · rw [List.getD_eq_getElem _ _ (by simpa using hw),
      List.getD_eq_getElem _ _ hw]
    exact List.getElem_set_ne h _
  · rw [List.getD_eq_default _ _ (by simpa using hw),
      List.getD_eq_default _ _ hw]

theorem foldl_flatMap_eq {β γ σ : Type} (f : β → List γ) (g : σ → γ → σ) :
    ∀ (l : List β) (init : σ),
      (l.flatMap f).foldl g init = l.foldl (fun s b => (f b).foldl g s) init
  | [], _ => rfl
  | b :: l, init => by
    rw [List.flatMap_cons, List.foldl_append, List.foldl_cons]
    exact foldl_flatMap_eq f g l _

theorem range_map_getD {γ : Type} (l : List γ) (f : Nat → γ) :
    (List.range l.length).map (fun i => l.getD i (f i)) = l := by
  apply List.ext_getElem
  · simp
  · intro i h1 h2
    have hi : i < l.length := by simpa using h2
    simp only [List.getElem_map, List.getElem_range]
    exact List.getD_eq_getElem l _ hi

theorem getD_take_drop {γ : Type} (l : List γ) (s t j : Nat) (d : γ) (hj : j < t) :
    ((l.drop s).take t).getD j d = l.getD (s + j) d := by
  rcases Nat.lt_or_ge (s + j) l.length with h | h
  · have hdl : j < (l.drop s).length := by simp; omega
    have htl : j < ((l.drop s).take t).length := by simp; omega
    rw [List.getD_eq_getElem _ _ htl, List.getD_eq_getElem _ _ h]
    rw [List.getElem_take, List.getElem_drop]
  · have : ((l.drop s).take t).length ≤ j := by simp; omega
    rw [List.getD_eq_default _ _ this, List.getD_eq_default _ _ h]

theorem flatMap_length_uniform {β γ : Type} (f : β → List γ) (a : Nat) :
    ∀ (l : List β), (∀ x ∈ l, (f x).length = a) → (l.flatMap f).length = l.length * a
  | [], _ => by simp
  | x :: l, h => by
    rw [List.flatMap_cons, List.length_append, h x (by simp),
      flatMap_length_uniform f a l (fun y hy => h y (by simp [hy]))]
    simp [Nat.succ_mul, Nat.add_comm]

theorem flatMap_getD_blocks {γ : Type} (f : Nat → List γ) (a : Nat) (d : γ) :
    ∀ (l : List Nat) (c j : Nat), (∀ x ∈ l, (f x).length = a) → c < l.length → j < a →
      (l.flatMap f).getD (c * a + j) d = (f (l.getD c 0)).getD j d
  | [], c, _, _, hc, _ => absurd hc (by simp)
  | x :: l, 0, j, hlen, _, hj => by
    rw [List.flatMap_cons, Nat.zero_mul, Nat.zero_add,
      List.getD_append _ _ _ _ (by rw [hlen x (by simp)]; exact hj)]
    rfl
  | x :: l, c + 1, j, hlen, hc, hj => by
    have hx : (f x).length = a := hlen x (by simp)
    rw [List.flatMap_cons, List.getD_append_right _ _ _ _
      (by rw [hx, Nat.succ_mul]; omega)]
    have harith : (c + 1) * a + j - (f x).length = c * a + j := by
      rw [hx, Nat.succ_mul]; omega
    rw [harith, flatMap_getD_blocks f a d l c j
      (fun y hy => hlen y (by simp [hy])) (by simpa using hc) hj]
    rfl

/-! ### Sweep step lemmas -/

theorem visitVertex_nvi {α : Type} (g : Nat) (co : List α) (s : SweepState α) (v : Nat) :
    (visitVertex g co s v).nvi =
      if s.nvi.getD v none = none then s.nvi.set v (some s.cv) else s.nvi := by
  by_cases hc : s.nvi.getD v none = none
  · simp only [visitVertex]; rw [if_pos hc, if_pos hc]
  · simp only [visitVertex]; rw [if_neg hc, if_neg hc]

theorem visitVertex_cv {α : Type} (g : Nat) (co : List α) (s : SweepState α) (v : Nat) :
    (visitVertex g co s v).cv =
      if s.nvi.getD v none = none then s.cv + 1 else s.cv := by
  by_cases hc : s.nvi.getD v none = none
  · simp only [visitVertex]; rw [if_pos hc, if_pos hc]
  · simp only [visitVertex]; rw [if_neg hc, if_neg hc]

theorem visitVertex_crd {α : Type} (g : Nat) (co : List α) (s : SweepState α) (v : Nat) :
    (visitVertex g co s v).crd =
      if s.nvi.getD v none = none then
        s.crd ++ ((co.drop (v * g)).take g)
      else s.crd := by
  by_cases hc : s.nvi.getD v none = none
  · simp only [visitVertex]; rw [if_pos hc, if_pos hc]
  · simp only [visitVertex]; rw [if_neg hc, if_neg hc]

theorem visitVertex_conn {α : Type} (g : Nat) (co : List α) (s : SweepState α) (v : Nat) :
    (visitVertex g co s v).conn =
      s.conn ++ [((visitVertex g co s v).nvi.getD v none).getD 0] := by
  by_cases hc : s.nvi.getD v none = none
  · simp only [visitVertex]; rw [if_pos hc]
  · simp only [visitVertex]; rw [if_neg hc]

theorem visitVertex_nvi_length {α : Type} (g : Nat) (co : List α)
    (s : SweepState α) (v : Nat) :
    ((visitVertex g co s v).nvi).length = s.nvi.length := by
  rw [visitVertex_nvi]
  split <;> simp

theorem foldl_nvi_length {α : Type} (g : Nat) (co : List α) :
    ∀ (vs : List Nat) (s : SweepState α),
      ((vs.foldl (visitVertex g co) s).nvi).length = s.nvi.length
  | [], _ => rfl
  | v :: vs, s => by
    rw [List.foldl_cons, foldl_nvi_length g co vs, visitVertex_nvi_length]

theorem visitVertex_mono {α : Type} (g : Nat) (co : List α) (s : SweepState α)
    (v w k : Nat) (h : s.nvi.getD w none = some k) :
    (visitVertex g co s v).nvi.getD w none = some k := by
  rw [visitVertex_nvi]
  split
  · rename_i hv
    have hvw : v ≠ w := fun e => by rw [e, h] at hv; exact Option.noConfusion hv
    rw [getD_set_ne _ _ _ _ _ hvw]; exact h
  · exact h

theorem foldl_nvi_mono {α : Type} (g : Nat) (co : List α) :
    ∀ (vs : List Nat) (s : SweepState α) (w k : Nat),
      s.nvi.getD w none = some k →
      ((vs.foldl (visitVertex g co) s).nvi).getD w none = some k
  | [], _, _, _, h => h
  | v :: vs, s, w, k, h => by
    rw [List.foldl_cons]
    exact foldl_nvi_mono g co vs _ w k (visitVertex_mono g co s v w k h)

theorem foldl_nvi_untouched {α : Type} (g : Nat) (co : List α) :
    ∀ (vs : List Nat) (s : SweepState α) (w : Nat), w ∉ vs →
      ((vs.foldl (visitVertex g co) s).nvi).getD w none = s.nvi.getD w none
  | [], _, _, _ => rfl
  | v :: vs, s, w, h => by
    rw [List.foldl_cons,
      foldl_nvi_untouched g co vs _ w (fun hw => h (by simp [hw])),
      visitVertex_nvi]
    split
    · exact getD_set_ne _ _ _ _ _ (fun e => h (by simp [e]))
    · rfl

theorem visitVertex_assigned {α : Type} (g : Nat) (co : List α) (s : SweepState α)
    (v : Nat) (hv : v < s.nvi.length) :
    ∃ k, (visitVertex g co s v).nvi.getD v none = some k := by
  rw [visitVertex_nvi]
  split
  · exact ⟨s.cv, getD_set_self _ _ _ _ hv⟩
  · rename_i hv'
    rcases h : s.nvi.getD v none with _ | k
    · exact absurd h hv'
    · exact ⟨k, rfl⟩

theorem foldl_conn_map {α : Type} (g : Nat) (co : List α) :
    ∀ (vs : List Nat) (s : SweepState α),
      (vs.foldl (visitVertex g co) s).conn =
        s.conn ++ vs.map
          (fun v => (((vs.foldl (visitVertex g co) s).nvi).getD v none).getD 0)
  | [], s => by simp
  | v :: vs, s => by
    rw [List.foldl_cons, foldl_conn_map g co vs (visitVertex g co s v),
      visitVertex_conn, List.map_cons]
    have hval : ((visitVertex g co s v).nvi.getD v none).getD 0 =
        ((((v :: vs).foldl (visitVertex g co) s).nvi).getD v none).getD 0 := by
      rw [List.foldl_cons]
      rcases h : (visitVertex g co s v).nvi.getD v none with _ | k
      · have hlen : s.nvi.length ≤ v := by
          by_contra hlt
          push_neg at hlt
          obtain ⟨k, hk⟩ := visitVertex_assigned g co s v hlt
          rw [hk] at h; exact Option.noConfusion h
        have : ((vs.foldl (visitVertex g co) (visitVertex g co s v)).nvi).getD v none
            = none := by
          apply List.getD_eq_default
          rw [foldl_nvi_length, visitVertex_nvi_length]
          exact hlen
        rw [this]
      · rw [foldl_nvi_mono g co vs _ v k h]
    rw [hval, List.append_assoc, List.singleton_append, List.foldl_cons]

/-! ### Sweep invariant -/

theorem sweepInv_step {α : Type} (n g : Nat) (co : List α) (hco : co.length = n * g)
    (s : SweepState α) (v : Nat) (hv : v < n) (h : SweepInv n g co s) :
    SweepInv n g co (visitVertex g co s v) := by
  obtain ⟨hlen, hbound, hinj, hsurj, hcrdlen, hchunk⟩ := h
  have hvlen : v < s.nvi.length := by rw [hlen]; exact hv
  by_cases hc : s.nvi.getD v none = none
  · refine ⟨?_, ?_, ?_, ?_, ?_, ?_⟩
    · rw [visitVertex_nvi, if_pos hc]; simpa using hlen
    · intro w k hk
      rw [visitVertex_nvi, if_pos hc] at hk
      rw [visitVertex_cv, if_pos hc]
      by_cases hwv : w = v
      · subst hwv
        rw [getD_set_self _ _ _ _ hvlen] at hk
        injection hk with hk'
        omega
      · rw [getD_set_ne _ _ _ _ _ (fun e => hwv e.symm)] at hk
        exact Nat.lt_succ_of_lt (hbound w k hk)
    · intro v1 v2 k h1 h2
      rw [visitVertex_nvi, if_pos hc] at h1 h2
      by_cases h1v : v1 = v <;> by_cases h2v : v2 = v
      · rw [h1v, h2v]
      · subst h1v
        rw [getD_set_self _ _ _ _ hvlen] at h1
        rw [getD_set_ne _ _ _ _ _ (fun e => h2v e.symm)] at h2
        have := hbound v2 k h2
        have hk : k = s.cv := by injection h1 with h1'; omega
        omega
      · subst h2v
        rw [getD_set_self _ _ _ _ hvlen] at h2
        rw [getD_set_ne _ _ _ _ _ (fun e => h1v e.symm)] at h1
        have := hbound v1 k h1
        have hk : k = s.cv := by injection h2 with h2'; omega
        omega
      · rw [getD_set_ne _ _ _ _ _ (fun e => h1v e.symm)] at h1
        rw [getD_set_ne _ _ _ _ _ (fun e => h2v e.symm)] at h2
        exact hinj v1 v2 k h1 h2
    · intro k hk
      rw [visitVertex_cv, if_pos hc] at hk
      rw [visitVertex_nvi, if_pos hc]
      rcases Nat.lt_or_ge k s.cv with hlt | hge
      · obtain ⟨w, hwn, hw⟩ := hsurj k hlt
        have hwv : w ≠ v := fun e => by rw [e, hc] at hw; exact Option.noConfusion hw
        exact ⟨w, hwn, by rw [getD_set_ne _ _ _ _ _ (fun e => hwv e.symm)]; exact hw⟩
      · have hk' : k = s.cv := by omega
        subst hk'
        exact ⟨v, hv, getD_set_self _ _ _ _ hvlen⟩
    · rw [visitVertex_crd, if_pos hc, visitVertex_cv, if_pos hc]
      have hlenchunk : ((co.drop (v * g)).take g).length = g := by
        have : (v + 1) * g ≤ n * g := Nat.mul_le_mul_right g hv
        simp only [List.length_take, List.length_drop, hco]
        rw [Nat.succ_mul] at this
        omega
      rw [List.length_append, hcrdlen, hlenchunk, Nat.succ_mul]
    · intro w k hk
      rw [visitVertex_crd, if_pos hc]
      rw [visitVertex_nvi, if_pos hc] at hk
      by_cases hwv : w = v
      · subst hwv
        rw [getD_set_self _ _ _ _ hvlen] at hk
        injection hk with hk'
        subst hk'
        have hdrop : (s.crd ++ (co.drop (w * g)).take g).drop (s.cv * g) =
            (co.drop (w * g)).take g := by
          rw [← hcrdlen]
          exact List.drop_left _ _
        rw [hdrop, List.take_take]
        simp
      · rw [getD_set_ne _ _ _ _ _ (fun e => hwv e.symm)] at hk
        have hkcv : k < s.cv := hbound w k hk
        have hdle : k * g + g ≤ s.crd.length := by
          rw [hcrdlen]
          have : (k + 1) * g ≤ s.cv * g := Nat.mul_le_mul_right g hkcv
          rw [Nat.succ_mul] at this
          omega
        rw [List.drop_append_of_le_length (by omega),
          List.take_append_of_le_length (by simp; omega)]
        exact hchunk w k hk
  · have hnvi : (visitVertex g co s v).nvi = s.nvi := by
      rw [visitVertex_nvi, if_neg hc]
    have hcv : (visitVertex g co s v).cv = s.cv := by
      rw [visitVertex_cv, if_neg hc]
    have hcrd : (visitVertex g co s v).crd = s.crd := by
      rw [visitVertex_crd, if_neg hc]
    exact ⟨by rw [hnvi]; exact hlen, by rw [hnvi, hcv]; exact hbound,
      by rw [hnvi]; exact hinj, by rw [hnvi, hcv]; exact hsurj,
      by rw [hcrd, hcv]; exact hcrdlen, by rw [hnvi, hcrd]; exact hchunk⟩

theorem sweepInv_foldl {α : Type} (n g : Nat) (co : List α) (hco : co.length = n * g) :
    ∀ (vs : List Nat) (s : SweepState α), (∀ v ∈ vs, v < n) → SweepInv n g co s →
      SweepInv n g co (vs.foldl (visitVertex g co) s)
  | [], _, _, h => h
  | v :: vs, s, hvs, h => by
    rw [List.foldl_cons]
    exact sweepInv_foldl n g co hco vs _ (fun w hw => hvs w (by simp [hw]))
      (sweepInv_step n g co hco s v (hvs v (by simp)) h)

theorem sweepInv_init {α : Type} (m : Mesh α) :
    SweepInv m.num_vertices m.gdim m.coordinates (initSweep m) := by
  refine ⟨by simp [initSweep], ?_, ?_, ?_, by simp [initSweep], ?_⟩
  · intro v k hk
    rw [show (initSweep m).nvi = List.replicate m.num_vertices none from rfl,
      getD_replicate_none] at hk
    exact Option.noConfusion hk
  · intro v w k h1 _
    rw [show (initSweep m).nvi = List.replicate m.num_vertices none from rfl,
      getD_replicate_none] at h1
    exact Option.noConfusion h1
  · intro k hk
    exact absurd hk (Nat.not_lt_zero k)
  · intro v k hk
    rw [show (initSweep m).nvi = List.replicate m.num_vertices none from rfl,
      getD_replicate_none] at hk
    exact Option.noConfusion hk

theorem sweepInv_complete_cv {α : Type} (n g : Nat) (co : List α) (s : SweepState α)
    (h : SweepInv n g co s) (hcomp : ∀ v, v < n → s.nvi.getD v none ≠ none) :
    s.cv = n := by
  obtain ⟨hlen, hbound, hinj, hsurj, -, -⟩ := h
  have hval : ∀ v, v < n → ∃ k, s.nvi.getD v none = some k := by
    intro v hv
    rcases hx : s.nvi.getD v none with _ | k
    · exact absurd hx (hcomp v hv)
    · exact ⟨k, rfl⟩
  have h1 : n ≤ s.cv := by
    have := Finset.card_le_card_of_injOn (f := fun v => (s.nvi.getD v none).getD 0)
      (s := Finset.range n) (t := Finset.range s.cv)
      (by
        intro v hv
        dsimp only
        obtain ⟨k, hk⟩ := hval v (Finset.mem_range.mp hv)
        rw [hk]
        exact Finset.mem_range.mpr (hbound v k hk))
      (by
        intro v hv w hw he
        dsimp only at he
        obtain ⟨k, hk⟩ := hval v (Finset.mem_range.mp hv)
        obtain ⟨k', hk'⟩ := hval w (Finset.mem_range.mp hw)
        simp only [hk, hk', Option.getD_some] at he
        subst he
        exact hinj v w k hk hk')
    simpa using this
  have h2 : s.cv ≤ n := by
    classical
    have := Finset.card_le_card_of_injOn
      (f := fun k => if hk : k < s.cv then (hsurj k hk).choose else 0)
      (s := Finset.range s.cv) (t := Finset.range n)
      (by
        intro k hk
        dsimp only
        have hk' : k < s.cv := Finset.mem_range.mp hk
        rw [dif_pos hk']
        exact Finset.mem_range.mpr (hsurj k hk').choose_spec.1)
      (by
        intro k hk k' hk' he
        dsimp only at he
        have hk1 : k < s.cv := Finset.mem_range.mp hk
        have hk2 : k' < s.cv := Finset.mem_range.mp hk'
        rw [dif_pos hk1, dif_pos hk2] at he
        have e1 := (hsurj k hk1).choose_spec.2
        have e2 := (hsurj k' hk2).choose_spec.2
        rw [he] at e1
        rw [e1] at e2
        exact Option.some.inj e2)
    simpa using this
  omega

theorem any_isNone_false_iff {γ : Type} (l : List (Option γ)) :
    (l.any fun o => o.isNone) = false ↔ ∀ v, v < l.length → l.getD v none ≠ none := by
  constructor
  · intro h v hv hnone
    have hmem : l.getD v none ∈ l := by
      rw [List.getD_eq_getElem _ _ hv]
      exact List.getElem_mem hv
    rw [hnone] at hmem
    have := List.any_eq_false.mp h none hmem
    simp at this
  · intro h
    rw [List.any_eq_false]
    intro o ho
    obtain ⟨i, hi, hio⟩ := List.mem_iff_getElem.mp ho
    have := h i hi
    rw [List.getD_eq_getElem _ _ hi, hio] at this
    rcases o with _ | x
    · exact absurd rfl this
    · simp

theorem colorSweep_eq_foldl {α : Type} (m : Mesh α) :
    colorSweep m (numColors m) =
      (visitList m).foldl (visitVertex m.gdim m.coordinates) (initSweep m) := by
  calc colorSweep m (numColors m)
      = ((List.range (numColors m)).flatMap
          (fun color => (coloredCellsAt m color).getD [])).foldl
          (sweepCell m) (initSweep m) := (foldl_flatMap_eq _ _ _ _).symm
    _ = ((cellOrder m).flatMap (cellVertices m)).foldl
          (visitVertex m.gdim m.coordinates) (initSweep m) :=
        (foldl_flatMap_eq _ _ _ _).symm
    _ = (visitList m).foldl (visitVertex m.gdim m.coordinates) (initSweep m) := rfl

/-! ### Metadata update lemmas -/

theorem getD_some_lt {γ : Type} (l : List (Option γ)) (i : Nat) (x : γ)
    (h : l.getD i none = some x) : i < l.length := by
  by_contra hge
  push_neg at hge
  rw [List.getD_eq_default _ _ hge] at h
  exact Option.noConfusion h

theorem assignCells_succ (color count : Nat) (cc labels : List Nat) (cur : Nat) :
    assignCells color (count + 1) cc labels cur =
      ((assignCells color count cc labels cur).1.set count
          (assignCells color count cc labels cur).2.2,
        (assignCells color count cc labels cur).2.1.set
          (assignCells color count cc labels cur).2.2 color,
        (assignCells color count cc labels cur).2.2 + 1) := by
  unfold assignCells
  rw [List.range_succ, List.foldl_append, List.foldl_cons, List.foldl_nil]

theorem assignCells_spec (color : Nat) :
    ∀ (count : Nat) (cc labels : List Nat) (cur : Nat), count ≤ cc.length →
      (assignCells color count cc labels cur).2.2 = cur + count ∧
      (assignCells color count cc labels cur).1.length = cc.length ∧
      (assignCells color count cc labels cur).2.1.length = labels.length ∧
      (∀ p d, p < count → (assignCells color count cc labels cur).1.getD p d = cur + p) ∧
      (∀ p d, count ≤ p → (assignCells color count cc labels cur).1.getD p d = cc.getD p d) ∧
      (∀ p d, cur ≤ p → p < cur + count → p < labels.length →
        (assignCells color count cc labels cur).2.1.getD p d = color) ∧
      (∀ p d, p < cur ∨ cur + count ≤ p →
        (assignCells color count cc labels cur).2.1.getD p d = labels.getD p d)
  | 0, cc, labels, cur, _ => by
    refine ⟨rfl, rfl, rfl, ?_, ?_, ?_, ?_⟩
    · intro p d hp; omega
    · intro p d _; rfl
    · intro p d h1 h2 _; omega
    · intro p d _; rfl
  | count + 1, cc, labels, cur, h => by
    obtain ⟨ih1, ih2, ih3, ih4, ih5, ih6, ih7⟩ :=
      assignCells_spec color count cc labels cur (by omega)
    rw [assignCells_succ, ih1]
    have hcl : count < (assignCells color count cc labels cur).1.length := by
      rw [ih2]; omega
    refine ⟨rfl, by simpa using ih2, by simpa using ih3, ?_, ?_, ?_, ?_⟩
    · intro p d hp
      rcases Nat.lt_or_ge p count with hlt | hge
      · rw [getD_set_ne _ _ _ _ _ (by omega)]
        exact ih4 p d hlt
      · have hp' : p = count := by omega
        subst hp'
        exact getD_set_self _ _ _ _ hcl
    · intro p d hp
      rw [getD_set_ne _ _ _ _ _ (by omega)]
      exact ih5 p d (by omega)
    · intro p d h1 h2 h3
      rcases Nat.lt_or_ge p (cur + count) with hlt | hge
      · rw [getD_set_ne _ _ _ _ _ (by omega)]
        exact ih6 p d h1 hlt h3
      · have hp' : p = cur + count := by omega
        subst hp'
        apply getD_set_self
        rw [ih3]
        exact h3
    · intro p d hp
      rw [getD_set_ne _ _ _ _ _ (by omega)]
      exact ih7 p d (by omega)

theorem updateColors_preserves {α : Type} :
    ∀ (counts : List Nat) (m : Mesh α) (color cur : Nat),
      ((updateColors m counts color cur).2).num_vertices = m.num_vertices ∧
      ((updateColors m counts color cur).2).gdim = m.gdim ∧
      ((updateColors m counts color cur).2).arity = m.arity ∧
      ((updateColors m counts color cur).2).connections = m.connections ∧
      ((updateColors m counts color cur).2).coordinates = m.coordinates ∧
      ((updateColors m counts color cur).2).aux_connectivity = m.aux_connectivity ∧
      ((updateColors m counts color cur).2).num_colored_cells = m.num_colored_cells
  | [], m, color, cur => ⟨rfl, rfl, rfl, rfl, rfl, rfl, rfl⟩
  | count :: rest, m, color, cur => by
    unfold updateColors
    dsimp only
    split
    · exact updateColors_preserves rest _ (color + 1) (cur + count)
    · exact ⟨rfl, rfl, rfl, rfl, rfl, rfl, rfl⟩

theorem updateColors_err_shape {α : Type} :
    ∀ (counts : List Nat) (m : Mesh α) (color cur : Nat) (e : RErr),
      (updateColors m counts color cur).1 = some e →
      ∃ c, e = RErr.metadataInconsistency c
  | [], _, _, _, _, h => Option.noConfusion h
  | count :: rest, m, color, cur, e, h => by
    unfold updateColors at h
    dsimp only at h
    split at h
    · exact updateColors_err_shape rest _ (color + 1) (cur + count) e h
    · exact ⟨color, (Option.some.inj h).symm⟩

theorem updateColors_len_inv {α : Type} :
    ∀ (counts : List Nat) (m : Mesh α) (color cur : Nat),
      (updateColors m counts color cur).1 = none →
      ∀ i, i < counts.length →
        ((coloredCellsAt m (color + i)).getD []).length = counts.getD i 0
  | [], _, _, _, _, i, hi => absurd hi (by simp)
  | count :: rest, m, color, cur, h, i, hi => by
    unfold updateColors at h
    dsimp only at h
    split at h
    · rename_i hlen
      rcases i with _ | j
      · simpa using hlen
      · have ih := updateColors_len_inv rest _ (color + 1) (cur + count) h j
          (by simpa using hi)
        have hset : coloredCellsAt
            { m with
              colored_cells := m.colored_cells.set color
                (some (assignCells color count ((coloredCellsAt m color).getD [])
                  (m.cell_colors.getD []) cur).1),
              cell_colors := some (assignCells color count
                ((coloredCellsAt m color).getD []) (m.cell_colors.getD []) cur).2.1 }
            (color + 1 + j) = coloredCellsAt m (color + 1 + j) := by
          unfold coloredCellsAt
          exact getD_set_ne _ _ _ _ _ (by omega)
        rw [hset] at ih
        rw [show color + (j + 1) = color + 1 + j by omega, ih]
        rfl
    · exact Option.noConfusion h

theorem updateColors_cons_pos {α : Type} (m : Mesh α) (count : Nat) (rest : List Nat)
    (color cur : Nat) (hlen : ((coloredCellsAt m color).getD []).length = count) :
    updateColors m (count :: rest) color cur =
      updateColors
        { m with
          colored_cells := m.colored_cells.set color
            (some (assignCells color count ((coloredCellsAt m color).getD [])
              (m.cell_colors.getD []) cur).1),
          cell_colors := some (assignCells color count ((coloredCellsAt m color).getD [])
            (m.cell_colors.getD []) cur).2.1 }
        rest (color + 1) (cur + count) := by
  conv_lhs => rw [updateColors]
  dsimp only
  rw [if_pos hlen]

theorem updateColors_spec {α : Type} :
    ∀ (counts : List Nat) (m : Mesh α) (color cur : Nat),
      (∀ i, i < counts.length → ∃ l, coloredCellsAt m (color + i) = some l ∧
        l.length = counts.getD i 0) →
      cur + counts.sum ≤ (m.cell_colors.getD []).length →
      (updateColors m counts color cur).1 = none ∧
      (∀ i, i < counts.length →
        coloredCellsAt (updateColors m counts color cur).2 (color + i)
          = some (List.range' (cur + (counts.take i).sum) (counts.getD i 0))) ∧
      (∀ i j, i < counts.length → j < counts.getD i 0 →
        (((updateColors m counts color cur).2).cell_colors.getD []).getD
          (cur + (counts.take i).sum + j) 0 = color + i) ∧
      (∀ c, c < color →
        coloredCellsAt (updateColors m counts color cur).2 c = coloredCellsAt m c) ∧
      (∀ p, p < cur →
        (((updateColors m counts color cur).2).cell_colors.getD []).getD p 0
          = (m.cell_colors.getD []).getD p 0) ∧
      (((updateColors m counts color cur).2).cell_colors.getD []).length
        = (m.cell_colors.getD []).length
  | [], m, color, cur, _, _ => by
    refine ⟨rfl, ?_, ?_, ?_, ?_, rfl⟩
    · intro i hi; exact absurd hi (by simp)
    · intro i j hi _; exact absurd hi (by simp)
    · intro c _; rfl
    · intro p _; rfl
  | count :: rest, m, color, cur, hpres, hlab => by
    obtain ⟨l0, hl0, hl0len⟩ := hpres 0 (by simp)
    rw [Nat.add_zero] at hl0
    have hcc : (coloredCellsAt m color).getD [] = l0 := by rw [hl0]; rfl
    have hlen : ((coloredCellsAt m color).getD []).length = count := by
      rw [hcc]; exact hl0len
    have hcolor_lt : color < m.colored_cells.length := getD_some_lt _ _ _ hl0
    obtain ⟨a1, a2, a3, a4, a5, a6, a7⟩ :=
      assignCells_spec color count ((coloredCellsAt m color).getD [])
        (m.cell_colors.getD []) cur (by rw [hlen])
    have hsum : (count :: rest).sum = count + rest.sum := List.sum_cons
    rw [updateColors_cons_pos m count rest color cur hlen]
    have hpres' : ∀ i, i < rest.length →
        ∃ l, coloredCellsAt
          { m with
            colored_cells := m.colored_cells.set color
              (some (assignCells color count ((coloredCellsAt m color).getD [])
                (m.cell_colors.getD []) cur).1),
            cell_colors := some (assignCells color count ((coloredCellsAt m color).getD [])
              (m.cell_colors.getD []) cur).2.1 }
          ((color + 1) + i) = some l ∧ l.length = rest.getD i 0 := by
      intro i hi
      obtain ⟨l, hl, hllen⟩ := hpres (i + 1) (by simpa using hi)
      refine ⟨l, ?_, hllen⟩
      show (m.colored_cells.set color _).getD ((color + 1) + i) none = some l
      rw [getD_set_ne _ _ _ _ _ (by omega)]
      rw [show (color + 1) + i = color + (i + 1) by omega]
      exact hl
    have hlab' : (cur + count) + rest.sum ≤
        (({ m with
            colored_cells := m.colored_cells.set color
              (some (assignCells color count ((coloredCellsAt m color).getD [])
                (m.cell_colors.getD []) cur).1),
            cell_colors := some (assignCells color count ((coloredCellsAt m color).getD [])
              (m.cell_colors.getD []) cur).2.1 } : Mesh α).cell_colors.getD []).length := by
      show (cur + count) + rest.sum ≤ (assignCells color count ((coloredCellsAt m color).getD [])
        (m.cell_colors.getD []) cur).2.1.length
      rw [a3]
      rw [hsum] at hlab
      omega
    obtain ⟨ih1, ih2, ih3, ih4, ih5, ih6⟩ :=
      updateColors_spec rest _ (color + 1) (cur + count) hpres' hlab'
    have hA1 : (assignCells color count ((coloredCellsAt m color).getD [])
        (m.cell_colors.getD []) cur).1 = List.range' cur count := by
      apply List.ext_getElem
      · rw [a2, hlen, List.length_range']
      · intro p h1 h2
        have hp : p < count := by rw [a2, hlen] at h1; exact h1
        rw [← List.getD_eq_getElem _ 0 h1, a4 p 0 hp]
        simp [List.getElem_range']
    refine ⟨ih1, ?_, ?_, ?_, ?_, ?_⟩
    · intro i hi
      rcases i with _ | j
      · simp only [Nat.add_zero]
        rw [ih4 color (by omega)]
        show (m.colored_cells.set color _).getD color none = _
        rw [getD_set_self _ _ _ _ hcolor_lt, hA1]
        simp
      · have := ih2 j (by simpa using hi)
        rw [show color + (j + 1) = (color + 1) + j by omega]
        rw [this]
        have harith : (cur + count) + (rest.take j).sum
            = cur + ((count :: rest).take (j + 1)).sum := by
          simp [List.take_succ_cons]
          omega
        rw [harith]
        rfl
    · intro i j hi hj
      rcases i with _ | i'
      · have hj' : j < count := hj
        have hpos : cur + ((count :: rest).take 0).sum + j = cur + j := by simp
        rw [hpos]
        rw [ih5 (cur + j) (by omega)]
        show (assignCells color count ((coloredCellsAt m color).getD [])
          (m.cell_colors.getD []) cur).2.1.getD (cur + j) 0 = color + 0
        rw [a6 (cur + j) 0 (by omega) (by omega)
          (by rw [hsum] at hlab; omega)]
        omega
      · have := ih3 i' j (by simpa using hi) hj
        rw [show cur + ((count :: rest).take (i' + 1)).sum + j
            = (cur + count) + (rest.take i').sum + j by simp [List.take_succ_cons]; omega]
        rw [show (color + (i' + 1)) = (color + 1) + i' by omega]
        exact this
    · intro c hc
      rw [ih4 c (by omega)]
      show (m.colored_cells.set color _).getD c none = _
      rw [getD_set_ne _ _ _ _ _ (by omega)]
      rfl
    · intro p hp
      rw [ih5 p (by omega)]
      show (assignCells color count ((coloredCellsAt m color).getD [])
        (m.cell_colors.getD []) cur).2.1.getD p 0 = _
      rw [a7 p 0 (Or.inl hp)]
    · rw [ih6]
      exact a3

/-! ### Pipeline lemmas -/

theorem clean_visitList {α : Type} (m : Mesh α) : visitList (clean m) = visitList m := rfl

theorem renumberMap_eq_foldl {α : Type} (m : Mesh α) :
    renumberMap m =
      ((visitList m).foldl (visitVertex m.gdim m.coordinates) (initSweep m)).nvi := by
  show (colorSweep (clean m) (numColors m)).nvi = _
  rw [show colorSweep (clean m) (numColors m)
      = colorSweep (clean m) (numColors (clean m)) from rfl,
    colorSweep_eq_foldl (clean m)]
  rfl

theorem renumber_success_path {α : Type} (jC : Nat → Nat) (jX : Nat → α) (m : Mesh α)
    (labels counts : List Nat)
    (h1 : m.cell_colors = some labels) (h2 : m.num_colored_cells = some counts)
    (h3 : counts ≠ [])
    (h4 : firstMissingColor (clean m) counts.length = none)
    (h5 : ((colorSweep (clean m) counts.length).nvi.any fun o => o.isNone) = false) :
    renumber_by_color jC jX m =
      updateColors
        { clean m with
          connections := (List.range ((clean m).connections.length)).map
            (fun i => (colorSweep (clean m) counts.length).conn.getD i (jC i)),
          coordinates := (List.range ((clean m).num_vertices * (clean m).gdim)).map
            (fun i => (colorSweep (clean m) counts.length).crd.getD i (jX i)) }
        counts 0 0 := by
  have hn : (clean m).num_colored_cells = some counts := h2
  unfold renumber_by_color
  rw [h1]
  dsimp only
  rw [hn]
  dsimp only
  rw [if_neg (by simpa using h3)]
  rw [h4]
  dsimp only
  rw [h5]
  rfl

theorem renumber_none_inv {α : Type} (jC : Nat → Nat) (jX : Nat → α) (m : Mesh α)
    (h : (renumber_by_color jC jX m).1 = none) :
    ∃ labels counts, m.cell_colors = some labels ∧ m.num_colored_cells = some counts ∧
      counts ≠ [] ∧ firstMissingColor (clean m) counts.length = none ∧
      ((colorSweep (clean m) counts.length).nvi.any fun o => o.isNone) = false := by
  unfold renumber_by_color at h
  rcases hc : m.cell_colors with _ | labels
  · rw [hc] at h
    exact absurd h (by simp)
  rw [hc] at h
  dsimp only at h
  rcases hn : (clean m).num_colored_cells with _ | counts
  · rw [hn] at h
    exact absurd h (by simp)
  rw [hn] at h
  dsimp only at h
  have hn' : m.num_colored_cells = some counts := hn
  by_cases h0 : counts.length = 0
  · rw [if_pos h0] at h
    exact absurd h (by simp)
  rw [if_neg h0] at h
  rcases hf : firstMissingColor (clean m) counts.length with _ | c
  · rw [hf] at h
    dsimp only at h
    by_cases h5 : ((colorSweep (clean m) counts.length).nvi.any fun o => o.isNone) = true
    · rw [h5] at h
      exact absurd h (by simp)
    · exact ⟨labels, counts, rfl, hn',
        fun e => h0 (by rw [e]; rfl), hf, Bool.eq_false_iff.mpr h5⟩
  · rw [hf] at h
    exact absurd h (by simp)

/-! ### Claim theorems -/

/-- C9: on the spec's scale example (2 colors, color 0 = cells [2,0], color 1
= cells [1], cell 2 = (v3,v1,v0), cell 0 = (v0,v1,v2), cell 1 = (v2,v3,v4)),
the sweep assigns v3→0, v1→1, v0→2, v2→3, v4→4, orders the cells as
[old 2, old 0, old 1], and writes connectivity (0,1,2) for new cell 0. -/
theorem C9_scale_example :
    renumberMap mshC9 = [some 2, some 1, some 3, some 0, some 4] ∧
    cellOrder mshC9 = [2, 0, 1] ∧
    renumber_by_color (fun _ => 0) (fun _ => 0) mshC9 =
      (none,
        { num_vertices := 5, gdim := 1, arity := 3,
          connections := [0, 1, 2, 2, 1, 3, 3, 0, 4],
          coordinates := [13, 11, 10, 12, 14],
          aux_connectivity := [],
          cell_colors := some [0, 0, 1],
          num_colored_cells := some [2, 1],
          colored_cells := [some [0, 1], some [2]] }) :=
  ⟨rfl, rfl, rfl⟩

/-- C5: on a colored mesh (labels, counts and per-color lists all present,
at least one color) in which some vertex is never visited by the
color-by-color cell sweep, `renumber_by_color` fails with the
renumbering-incomplete error and the live connectivity and coordinate
buffers are not altered. -/
theorem C5_incomplete_fails_buffers_untouched {α : Type} (jC : Nat → Nat)
    (jX : Nat → α) (m : Mesh α) (labels counts : List Nat)
    (h1 : m.cell_colors = some labels) (h2 : m.num_colored_cells = some counts)
    (h3 : counts ≠ []) (h4 : firstMissingColor (clean m) counts.length = none)
    (hmiss : ∃ v, v < m.num_vertices ∧ v ∉ visitList m) :
    (renumber_by_color jC jX m).1 = some RErr.renumberingIncomplete ∧
    (renumber_by_color jC jX m).2.connections = m.connections ∧
    (renumber_by_color jC jX m).2.coordinates = m.coordinates := by
  obtain ⟨v, hv, hvm⟩ := hmiss
  have hn : (clean m).num_colored_cells = some counts := h2
  have he : colorSweep (clean m) counts.length =
      (visitList m).foldl (visitVertex m.gdim m.coordinates) (initSweep m) := by
    rw [show counts.length = numColors m by simp [numColors, h2]]
    rw [show colorSweep (clean m) (numColors m)
        = colorSweep (clean m) (numColors (clean m)) from rfl,
      colorSweep_eq_foldl (clean m)]
    rfl
  have hlen : ((colorSweep (clean m) counts.length).nvi).length = m.num_vertices := by
    rw [he, foldl_nvi_length]
    simp [initSweep]
  have hnone : ((colorSweep (clean m) counts.length).nvi).getD v none = none := by
    rw [he, foldl_nvi_untouched _ _ _ _ _ hvm]
    exact getD_replicate_none _ _
  have hany : ((colorSweep (clean m) counts.length).nvi.any fun o => o.isNone) = true := by
    apply List.any_eq_true.mpr
    refine ⟨none, ?_, rfl⟩
    have hvl : v < ((colorSweep (clean m) counts.length).nvi).length := by omega
    rw [List.getD_eq_getElem _ _ hvl] at hnone
    rw [← hnone]
    exact List.getElem_mem hvl
  have hred : renumber_by_color jC jX m = (some RErr.renumberingIncomplete, clean m) := by
    unfold renumber_by_color
    rw [h1]
    dsimp only
    rw [hn]
    dsimp only
    rw [if_neg (by simpa using h3), h4]
    dsimp only
    rw [hany, if_pos rfl]
  rw [hred]
  exact ⟨rfl, rfl, rfl⟩

/-- Witness for C5: the spec's 5-vertex scenario in which the colored cells
reference only vertices 0-3. -/
theorem C5_witness :
    (renumber_by_color (fun _ => 0) (fun _ => (0 : Nat)) mshIncomplete).1
        = some RErr.renumberingIncomplete ∧
    (renumber_by_color (fun _ => 0) (fun _ => (0 : Nat)) mshIncomplete).2.connections
        = mshIncomplete.connections ∧
    (renumber_by_color (fun _ => 0) (fun _ => (0 : Nat)) mshIncomplete).2.coordinates
        = mshIncomplete.coordinates :=
  C5_incomplete_fails_buffers_untouched (fun _ => 0) (fun _ => 0) mshIncomplete
    [0, 1] [1, 1] (by decide) (by decide) (by decide) (by decide)
    ⟨4, by decide, by decide⟩

theorem renumber_fail_cases {α : Type} (jC : Nat → Nat) (jX : Nat → α) (m : Mesh α)
    (e : RErr) (hfail : (renumber_by_color jC jX m).1 = some e)
    (hnm : ∀ c, e ≠ RErr.metadataInconsistency c) :
    renumber_by_color jC jX m = (some e, m) ∨
    renumber_by_color jC jX m = (some e, clean m) := by
  unfold renumber_by_color at hfail ⊢
  rcases hc : m.cell_colors with _ | labels
  · rw [hc] at hfail
    dsimp only at hfail ⊢
    rw [← Option.some.inj hfail]
    exact Or.inl rfl
  · rw [hc] at hfail
    dsimp only at hfail ⊢
    rcases hn : (clean m).num_colored_cells with _ | counts
    · rw [hn] at hfail
      dsimp only at hfail ⊢
      rw [← Option.some.inj hfail]
      exact Or.inr rfl
    · rw [hn] at hfail
      dsimp only at hfail ⊢
      by_cases h0 : counts.length = 0
      · rw [if_pos h0] at hfail ⊢
        rw [← Option.some.inj hfail]
        exact Or.inr rfl
      · rw [if_neg h0] at hfail ⊢
        rcases hf : firstMissingColor (clean m) counts.length with _ | c
        · rw [hf] at hfail
          dsimp only at hfail ⊢
          by_cases h5 : ((colorSweep (clean m) counts.length).nvi.any
              fun o => o.isNone) = true
          · rw [h5, if_pos rfl] at hfail ⊢
            rw [← Option.some.inj hfail]
            exact Or.inr rfl
          · rw [Bool.eq_false_iff.mpr h5, if_neg (by simp)] at hfail ⊢
            obtain ⟨c, hc'⟩ := updateColors_err_shape _ _ _ _ _ hfail
            exact absurd hc' (hnm c)
        · rw [hf] at hfail
          dsimp only at hfail ⊢
          rw [← Option.some.inj hfail]
          exact Or.inr rfl

/-- C4 (amended): on every failure path other than the metadata-inconsistency
failure, the live connectivity and coordinate buffers and the color metadata
are unchanged (the missing-coloring failure leaves the whole mesh unchanged,
the other pre-commit failures leave it changed only by the invalidation
step's clearing of non-cell-vertex connectivity, which the original claim
did not except; the metadata-inconsistency failure occurs after the buffers
are committed). -/
theorem C4_precommit_failure_leaves_buffers {α : Type} (jC : Nat → Nat) (jX : Nat → α)
    (m : Mesh α) (e : RErr) (hfail : (renumber_by_color jC jX m).1 = some e)
    (hnm : ∀ c, e ≠ RErr.metadataInconsistency c) :
    (renumber_by_color jC jX m).2.connections = m.connections ∧
    (renumber_by_color jC jX m).2.coordinates = m.coordinates ∧
    (renumber_by_color jC jX m).2.cell_colors = m.cell_colors ∧
    (renumber_by_color jC jX m).2.colored_cells = m.colored_cells := by
  rcases renumber_fail_cases jC jX m e hfail hnm with h | h <;> rw [h] <;>
    exact ⟨rfl, rfl, rfl, rfl⟩

/-- Counterexample to C4 as stated: on a colored mesh carrying a
non-cell-vertex incidence relation whose partition covers no cell, the call
fails (renumbering incomplete) yet the live mesh state has been mutated:
the invalidation step already cleared the auxiliary connectivity. -/
theorem C4_counterexample :
    (renumber_by_color (fun _ => 0) (fun _ => (0 : Nat)) mshAuxIncomplete).1
        = some RErr.renumberingIncomplete ∧
    (renumber_by_color (fun _ => 0) (fun _ => (0 : Nat)) mshAuxIncomplete).2
        ≠ mshAuxIncomplete :=
  ⟨by decide, by decide⟩

/-- Witness for C4 (amended), at the same failing mesh. -/
theorem C4_witness :
    (renumber_by_color (fun _ => 0) (fun _ => (0 : Nat)) mshAuxIncomplete).2.connections
        = mshAuxIncomplete.connections ∧
    (renumber_by_color (fun _ => 0) (fun _ => (0 : Nat)) mshAuxIncomplete).2.coordinates
        = mshAuxIncomplete.coordinates ∧
    (renumber_by_color (fun _ => 0) (fun _ => (0 : Nat)) mshAuxIncomplete).2.cell_colors
        = mshAuxIncomplete.cell_colors ∧
    (renumber_by_color (fun _ => 0) (fun _ => (0 : Nat)) mshAuxIncomplete).2.colored_cells
        = mshAuxIncomplete.colored_cells :=
  C4_precommit_failure_leaves_buffers (fun _ => 0) (fun _ => 0) mshAuxIncomplete
    RErr.renumberingIncomplete (by decide) (fun c h => RErr.noConfusion h)

/-- C6: evaluating the model, which encodes the evident intent of the
miswritten assert at line 67 (`num_collored_cells`, an undeclared
identifier) and of the zero-colors assert at line 69 (compiled away, like
every assert, in the only configuration in which the file compiles), at
the claim's failing inputs: the uncolored mesh alone fails with its mesh
fully unchanged, while the counts-absent and zero-colors inputs reach the
intended precondition checks only after the invalidation step has already
cleared the non-cell-vertex connectivity, so even the intended program
mutates the mesh in those two cases. -/
theorem C6_intended_checks_after_clean :
    renumber_by_color (fun _ => 0) (fun _ => (0 : Nat)) mshUncolored
        = (some RErr.notColored, mshUncolored) ∧
    renumber_by_color (fun _ => 0) (fun _ => (0 : Nat)) mshNoCounts
        = (some RErr.missingNumColoredCells, clean mshNoCounts) ∧
    (renumber_by_color (fun _ => 0) (fun _ => (0 : Nat)) mshNoCounts).2
        ≠ mshNoCounts ∧
    renumber_by_color (fun _ => 0) (fun _ => (0 : Nat)) mshZeroColors
        = (some RErr.zeroColors, clean mshZeroColors) ∧
    (renumber_by_color (fun _ => 0) (fun _ => (0 : Nat)) mshZeroColors).2
        ≠ mshZeroColors :=
  ⟨by decide, by decide, by decide, by decide, by decide⟩

/-- C8: the length check the source intends at line 128 (its assert is
miswritten, see the header comment) fires during the metadata update, after
the connectivity and coordinate buffers have already been committed: on
`mshBadCount` (color 0 stores cells [1,0] but records count 1) the model
fails with the metadata-inconsistency error while the coordinate buffer
already holds the renumbered data, differing from the original. -/
theorem C8_metadata_check_after_commit :
    renumber_by_color (fun _ => 0) (fun _ => (0 : Nat)) mshBadCount
      = (some (RErr.metadataInconsistency 0),
          { mshBadCount with connections := [0, 1], coordinates := [8, 7] }) ∧
    (renumber_by_color (fun _ => 0) (fun _ => (0 : Nat)) mshBadCount).2.coordinates
      ≠ mshBadCount.coordinates :=
  ⟨by decide, by decide⟩

/-- C10 (amended): the result is independent of the uninitialized scratch
contents whenever the sweep fills both scratch buffers exactly (as on every
valid colored mesh whose partition covers all cells). -/
theorem C10_deterministic_when_covered {α : Type} (jC1 jC2 : Nat → Nat)
    (jX1 jX2 : Nat → α) (m : Mesh α)
    (hconn : ∀ counts, m.num_colored_cells = some counts →
      (colorSweep (clean m) counts.length).conn.length = (clean m).connections.length)
    (hcrd : ∀ counts, m.num_colored_cells = some counts →
      (colorSweep (clean m) counts.length).crd.length
        = (clean m).num_vertices * (clean m).gdim) :
    renumber_by_color jC1 jX1 m = renumber_by_color jC2 jX2 m := by
  unfold renumber_by_color
  rcases hc : m.cell_colors with _ | labels
  · rfl
  dsimp only
  rcases hn : (clean m).num_colored_cells with _ | counts
  · rfl
  dsimp only
  by_cases h0 : counts.length = 0
  · rw [if_pos h0, if_pos h0]
  rw [if_neg h0, if_neg h0]
  rcases hf : firstMissingColor (clean m) counts.length with _ | c
  · dsimp only
    by_cases h5 : ((colorSweep (clean m) counts.length).nvi.any
        fun o => o.isNone) = true
    · rw [h5, if_pos rfl, if_pos rfl]
    · rw [Bool.eq_false_iff.mpr h5, if_neg (by simp), if_neg (by simp)]
      have hn' : m.num_colored_cells = some counts := hn
      rw [show (List.range ((clean m).connections.length)).map
            (fun i => (colorSweep (clean m) counts.length).conn.getD i (jC1 i))
              = (colorSweep (clean m) counts.length).conn by
          rw [← hconn counts hn']; exact range_map_getD _ _]
      rw [show (List.range ((clean m).connections.length)).map
            (fun i => (colorSweep (clean m) counts.length).conn.getD i (jC2 i))
              = (colorSweep (clean m) counts.length).conn by
          rw [← hconn counts hn']; exact range_map_getD _ _]
      rw [show (List.range ((clean m).num_vertices * (clean m).gdim)).map
            (fun i => (colorSweep (clean m) counts.length).crd.getD i (jX1 i))
              = (colorSweep (clean m) counts.length).crd by
          rw [← hcrd counts hn']; exact range_map_getD _ _]
      rw [show (List.range ((clean m).num_vertices * (clean m).gdim)).map
            (fun i => (colorSweep (clean m) counts.length).crd.getD i (jX2 i))
              = (colorSweep (clean m) counts.length).crd by
          rw [← hcrd counts hn']; exact range_map_getD _ _]
  · rfl

/-- Counterexample to C10 as stated: on a mesh whose partition lists only
one of two identical cells, the sweep underfills the connectivity scratch,
the commit copies uninitialized memory, and two runs differing only in the
(unspecified) scratch contents return different meshes. -/
theorem C10_counterexample :
    renumber_by_color (fun _ => 7) (fun _ => (7 : Nat)) mshUnderfilled
      ≠ renumber_by_color (fun _ => 8) (fun _ => (8 : Nat)) mshUnderfilled := by
  decide

/-- Witness for C10 (amended): two runs with different scratch oracles on
the scale example agree. -/
theorem C10_witness :
    renumber_by_color (fun _ => 7) (fun _ => (7 : Nat)) mshC9
      = renumber_by_color (fun _ => 8) (fun _ => (8 : Nat)) mshC9 :=
  C10_deterministic_when_covered (fun _ => 7) (fun _ => 8) (fun _ => 7) (fun _ => 8)
    mshC9 (by decide) (by decide)

/-- C1: on a valid colored mesh (all referenced vertices in range, coordinate
buffer of size numVertices × gdim), if `renumber_by_color` succeeds then the
transient new-vertex-index map is total on [0, numVertices) with values in
[0, numVertices), injective, and surjective onto [0, numVertices): a
bijection, every new index used exactly once. -/
theorem C1_vertex_map_bijection {α : Type} (jC : Nat → Nat) (jX : Nat → α)
    (m : Mesh α)
    (hv : ∀ v ∈ visitList m, v < m.num_vertices)
    (hco : m.coordinates.length = m.num_vertices * m.gdim)
    (hsucc : (renumber_by_color jC jX m).1 = none) :
    (∀ v, v < m.num_vertices →
      ∃ k, k < m.num_vertices ∧ (renumberMap m).getD v none = some k) ∧
    (∀ v w k, (renumberMap m).getD v none = some k →
      (renumberMap m).getD w none = some k → v = w) ∧
    (∀ k, k < m.num_vertices →
      ∃ v, v < m.num_vertices ∧ (renumberMap m).getD v none = some k) := by
  obtain ⟨labels, counts, h1, h2, h3, h4, h5⟩ := renumber_none_inv jC jX m hsucc
  have hfoldeq : colorSweep (clean m) counts.length =
      (visitList m).foldl (visitVertex m.gdim m.coordinates) (initSweep m) := by
    rw [show counts.length = numColors m by simp [numColors, h2]]
    rw [show colorSweep (clean m) (numColors m)
        = colorSweep (clean m) (numColors (clean m)) from rfl,
      colorSweep_eq_foldl (clean m)]
    rfl
  set F := (visitList m).foldl (visitVertex m.gdim m.coordinates) (initSweep m) with hF
  have hinv : SweepInv m.num_vertices m.gdim m.coordinates F :=
    sweepInv_foldl _ _ _ hco (visitList m) (initSweep m) hv (sweepInv_init m)
  have hlen : F.nvi.length = m.num_vertices := by
    rw [hF, foldl_nvi_length]
    simp [initSweep]
  rw [hfoldeq] at h5
  have hcomp : ∀ v, v < m.num_vertices → F.nvi.getD v none ≠ none := by
    intro v hv'
    exact (any_isNone_false_iff F.nvi).mp h5 v (by rw [hlen]; exact hv')
  have hmap : renumberMap m = F.nvi := renumberMap_eq_foldl m
  have hcv : F.cv = m.num_vertices := sweepInv_complete_cv _ _ _ _ hinv hcomp
  obtain ⟨-, hbound, hinj, hsurj, -, -⟩ := hinv
  rw [hmap]
  refine ⟨?_, hinj, ?_⟩
  · intro v hv'
    rcases hx : F.nvi.getD v none with _ | k
    · exact absurd hx (hcomp v hv')
    · exact ⟨k, by rw [← hcv]; exact hbound v k hx, rfl⟩
  · intro k hk
    obtain ⟨v, hvn, hvk⟩ := hsurj k (by rw [hcv]; exact hk)
    exact ⟨v, hvn, hvk⟩

/-- Witness for C1: the scale-example mesh. -/
theorem C1_witness :
    (∀ v, v < mshC9.num_vertices →
      ∃ k, k < mshC9.num_vertices ∧ (renumberMap mshC9).getD v none = some k) ∧
    (∀ v w k, (renumberMap mshC9).getD v none = some k →
      (renumberMap mshC9).getD w none = some k → v = w) ∧
    (∀ k, k < mshC9.num_vertices →
      ∃ v, v < mshC9.num_vertices ∧ (renumberMap mshC9).getD v none = some k) :=
  C1_vertex_map_bijection (fun _ => 0) (fun _ => 0) mshC9
    (by decide) (by decide) (by decide)

/-- C3: on a valid colored mesh, after `renumber_by_color` succeeds, the
coordinate chunk stored at each vertex's new index in the committed
coordinate buffer equals that vertex's original coordinate chunk:
renumbering permutes coordinate vectors without changing any value. -/
theorem C3_coordinates_permuted {α : Type} (jC : Nat → Nat) (jX : Nat → α)
    (m : Mesh α)
    (hv : ∀ v ∈ visitList m, v < m.num_vertices)
    (hco : m.coordinates.length = m.num_vertices * m.gdim)
    (hsucc : (renumber_by_color jC jX m).1 = none) :
    ∀ v, v < m.num_vertices →
      (((renumber_by_color jC jX m).2.coordinates).drop
          (newVertexIndex m v * m.gdim)).take m.gdim
        = (m.coordinates.drop (v * m.gdim)).take m.gdim := by
  obtain ⟨labels, counts, h1, h2, h3, h4, h5⟩ := renumber_none_inv jC jX m hsucc
  have hfoldeq : colorSweep (clean m) counts.length =
      (visitList m).foldl (visitVertex m.gdim m.coordinates) (initSweep m) := by
    rw [show counts.length = numColors m by simp [numColors, h2]]
    rw [show colorSweep (clean m) (numColors m)
        = colorSweep (clean m) (numColors (clean m)) from rfl,
      colorSweep_eq_foldl (clean m)]
    rfl
  set F := (visitList m).foldl (visitVertex m.gdim m.coordinates) (initSweep m) with hF
  have hinv : SweepInv m.num_vertices m.gdim m.coordinates F :=
    sweepInv_foldl _ _ _ hco (visitList m) (initSweep m) hv (sweepInv_init m)
  have hlen : F.nvi.length = m.num_vertices := by
    rw [hF, foldl_nvi_length]
    simp [initSweep]
  rw [hfoldeq] at h5
  have hcomp : ∀ v, v < m.num_vertices → F.nvi.getD v none ≠ none := by
    intro v hv'
    exact (any_isNone_false_iff F.nvi).mp h5 v (by rw [hlen]; exact hv')
  have hcv : F.cv = m.num_vertices := sweepInv_complete_cv _ _ _ _ hinv hcomp
  have hred := renumber_success_path jC jX m labels counts h1 h2 h3 h4
    (by rw [hfoldeq]; exact h5)
  obtain ⟨-, hbound, -, -, hcrdlen, hchunk⟩ := hinv
  have hcommit : (renumber_by_color jC jX m).2.coordinates = F.crd := by
    rw [hred, (updateColors_preserves counts _ 0 0).2.2.2.2.1]
    show (List.range ((clean m).num_vertices * (clean m).gdim)).map
      (fun i => (colorSweep (clean m) counts.length).crd.getD i (jX i)) = F.crd
    rw [hfoldeq]
    rw [show (clean m).num_vertices * (clean m).gdim = F.crd.length by
      rw [hcrdlen, hcv]; rfl]
    exact range_map_getD _ _
  intro v hv'
  rcases hx : F.nvi.getD v none with _ | k
  · exact absurd hx (hcomp v hv')
  · have hnew : newVertexIndex m v = k := by
      unfold newVertexIndex
      rw [renumberMap_eq_foldl, ← hF, hx]
      rfl
    rw [hcommit, hnew]
    exact hchunk v k hx

/-- Witness for C3: vertex 3 of the scale-example mesh. -/
theorem C3_witness :
    (((renumber_by_color (fun _ => 0) (fun _ => (0 : Nat)) mshC9).2.coordinates).drop
        (newVertexIndex mshC9 3 * mshC9.gdim)).take mshC9.gdim
      = (mshC9.coordinates.drop (3 * mshC9.gdim)).take mshC9.gdim :=
  C3_coordinates_permuted (fun _ => 0) (fun _ => 0) mshC9
    (by decide) (by decide) (by decide) 3 (by decide)

/-- C2: on a valid colored mesh whose color partition's cells exactly fill
the connectivity buffer, after `renumber_by_color` succeeds the committed
buffer's total length is unchanged, and the value in cell slot `(c, j)` of
the new cell ordering equals the new index of the vertex that occupied slot
`j` of the corresponding original cell. -/
theorem C2_connectivity_rewritten {α : Type} (jC : Nat → Nat) (jX : Nat → α)
    (m : Mesh α)
    (harity : ∀ c ∈ cellOrder m, (c + 1) * m.arity ≤ m.connections.length)
    (hfill : (cellOrder m).length * m.arity = m.connections.length)
    (hsucc : (renumber_by_color jC jX m).1 = none) :
    ((renumber_by_color jC jX m).2.connections).length = m.connections.length ∧
    (∀ c j, c < (cellOrder m).length → j < m.arity →
      ((renumber_by_color jC jX m).2.connections).getD (c * m.arity + j) 0
        = newVertexIndex m (m.connections.getD
            ((cellOrder m).getD c 0 * m.arity + j) 0)) := by
  obtain ⟨labels, counts, h1, h2, h3, h4, h5⟩ := renumber_none_inv jC jX m hsucc
  have hfoldeq : colorSweep (clean m) counts.length =
      (visitList m).foldl (visitVertex m.gdim m.coordinates) (initSweep m) := by
    rw [show counts.length = numColors m by simp [numColors, h2]]
    rw [show colorSweep (clean m) (numColors m)
        = colorSweep (clean m) (numColors (clean m)) from rfl,
      colorSweep_eq_foldl (clean m)]
    rfl
  set F := (visitList m).foldl (visitVertex m.gdim m.coordinates) (initSweep m) with hF
  have hred := renumber_success_path jC jX m labels counts h1 h2 h3 h4 h5
  have hlens : ∀ c ∈ cellOrder m, (cellVertices m c).length = m.arity := by
    intro c hcmem
    unfold cellVertices
    rw [List.length_take, List.length_drop]
    have := harity c hcmem
    rw [Nat.succ_mul] at this
    omega
  have hconnmap : F.conn = (visitList m).map
      (fun v => (F.nvi.getD v none).getD 0) := by
    have h := foldl_conn_map m.gdim m.coordinates (visitList m) (initSweep m)
    rw [← hF] at h
    simpa [initSweep] using h
  have hconnlen : F.conn.length = m.connections.length := by
    rw [hconnmap, List.length_map]
    unfold visitList
    rw [flatMap_length_uniform (cellVertices m) m.arity (cellOrder m) hlens, hfill]
  have hcommit : (renumber_by_color jC jX m).2.connections = F.conn := by
    rw [hred, (updateColors_preserves counts _ 0 0).2.2.2.1]
    show (List.range ((clean m).connections.length)).map
      (fun i => (colorSweep (clean m) counts.length).conn.getD i (jC i)) = F.conn
    rw [hfoldeq]
    rw [show (clean m).connections.length = F.conn.length by rw [hconnlen]; rfl]
    exact range_map_getD _ _
  refine ⟨by rw [hcommit, hconnlen], ?_⟩
  intro c j hc hj
  rw [hcommit, hconnmap]
  have hmemc : (cellOrder m).getD c 0 ∈ cellOrder m := by
    rw [List.getD_eq_getElem _ _ hc]
    exact List.getElem_mem hc
  have hsplit : (visitList m).map (fun v => (F.nvi.getD v none).getD 0)
      = (cellOrder m).flatMap
          (fun cIdx => (cellVertices m cIdx).map
            (fun v => (F.nvi.getD v none).getD 0)) := by
    unfold visitList
    exact List.map_flatMap _ _ _
  rw [hsplit]
  rw [flatMap_getD_blocks _ m.arity 0 (cellOrder m) c j
    (fun x hx => by rw [List.length_map]; exact hlens x hx) hc hj]
  have hjl : j < ((cellVertices m ((cellOrder m).getD c 0)).map
      (fun v => (F.nvi.getD v none).getD 0)).length := by
    rw [List.length_map, hlens _ hmemc]
    exact hj
  have hjv : j < (cellVertices m ((cellOrder m).getD c 0)).length := by
    rw [hlens _ hmemc]
    exact hj
  rw [List.getD_eq_getElem _ _ hjl, List.getElem_map,
    ← List.getD_eq_getElem _ 0 hjv]
  have hvert : (cellVertices m ((cellOrder m).getD c 0)).getD j 0
      = m.connections.getD ((cellOrder m).getD c 0 * m.arity + j) 0 := by
    unfold cellVertices
    exact getD_take_drop _ _ _ _ _ hj
  rw [hvert]
  unfold newVertexIndex
  rw [renumberMap_eq_foldl]

/-- Witness for C2: the scale-example mesh. -/
theorem C2_witness :
    ((renumber_by_color (fun _ => 0) (fun _ => (0 : Nat)) mshC9).2.connections).length
        = mshC9.connections.length ∧
    (∀ c j, c < (cellOrder mshC9).length → j < mshC9.arity →
      ((renumber_by_color (fun _ => 0) (fun _ => (0 : Nat)) mshC9).2.connections).getD
          (c * mshC9.arity + j) 0
        = newVertexIndex mshC9 (mshC9.connections.getD
            ((cellOrder mshC9).getD c 0 * mshC9.arity + j) 0)) :=
  C2_connectivity_rewritten (fun _ => 0) (fun _ => 0) mshC9
    (by decide) (by decide) (by decide)

/-- C7: on a valid colored mesh, after `renumber_by_color` succeeds, cells
are numbered in non-decreasing color order with within-color order matching
the partition's stored order: color `c`'s cell list holds the consecutive
new cell numbers starting at the sum of the earlier colors' counts, and the
per-cell color label of each such new cell is set to `c`. -/
theorem C7_cells_renumbered_by_color {α : Type} (jC : Nat → Nat) (jX : Nat → α)
    (m : Mesh α)
    (hlab : (m.num_colored_cells.getD []).sum ≤ (m.cell_colors.getD []).length)
    (hsucc : (renumber_by_color jC jX m).1 = none) :
    ∀ c, c < numColors m →
      coloredCellsAt (renumber_by_color jC jX m).2 c
        = some (List.range' (((m.num_colored_cells.getD []).take c).sum)
            ((m.num_colored_cells.getD []).getD c 0)) ∧
      (∀ i, i < (m.num_colored_cells.getD []).getD c 0 →
        (((renumber_by_color jC jX m).2.cell_colors).getD []).getD
          ((((m.num_colored_cells.getD []).take c).sum) + i) 0 = c) := by
  obtain ⟨labels, counts, h1, h2, h3, h4, h5⟩ := renumber_none_inv jC jX m hsucc
  have hcounts : m.num_colored_cells.getD [] = counts := by rw [h2]; rfl
  have hred := renumber_success_path jC jX m labels counts h1 h2 h3 h4 h5
  rw [hred] at hsucc
  set M2 : Mesh α :=
    { clean m with
      connections := (List.range ((clean m).connections.length)).map
        (fun i => (colorSweep (clean m) counts.length).conn.getD i (jC i)),
      coordinates := (List.range ((clean m).num_vertices * (clean m).gdim)).map
        (fun i => (colorSweep (clean m) counts.length).crd.getD i (jX i)) }
    with hM2
  have hcellsM2 : ∀ x, coloredCellsAt M2 x = coloredCellsAt m x := fun x => rfl
  have hccM2 : M2.cell_colors = m.cell_colors := rfl
  have hlen_inv := updateColors_len_inv counts M2 0 0 hsucc
  have hpres : ∀ i, i < counts.length →
      ∃ l, coloredCellsAt M2 (0 + i) = some l ∧ l.length = counts.getD i 0 := by
    intro i hi
    have hfind := List.find?_eq_none.mp h4 i (List.mem_range.mpr hi)
    have hne : coloredCellsAt (clean m) i ≠ none := fun e => hfind (by rw [e]; rfl)
    obtain ⟨l, hl⟩ := Option.ne_none_iff_exists'.mp hne
    have hl' : coloredCellsAt m i = some l := hl
    refine ⟨l, ?_, ?_⟩
    · rw [hcellsM2, Nat.zero_add]
      exact hl'
    · have hlen := hlen_inv i hi
      rw [hcellsM2, Nat.zero_add, hl'] at hlen
      simpa using hlen
  have hlab2 : 0 + counts.sum ≤ (M2.cell_colors.getD []).length := by
    rw [hccM2, Nat.zero_add, ← hcounts]
    exact hlab
  obtain ⟨-, s2, s3, -, -, -⟩ := updateColors_spec counts M2 0 0 hpres hlab2
  intro c hc
  have hc' : c < counts.length := by
    rw [show numColors m = counts.length by simp [numColors, h2]] at hc
    exact hc
  constructor
  · rw [hred, hcounts]
    have hs := s2 c hc'
    simp only [Nat.zero_add] at hs
    exact hs
  · intro i hi
    rw [hcounts] at hi
    rw [hred, hcounts]
    have hs := s3 c i hc' hi
    simp only [Nat.zero_add] at hs
    exact hs

/-- Witness for C7: color 0 of the scale-example mesh, and the label of new
cell 1. -/
theorem C7_witness :
    coloredCellsAt (renumber_by_color (fun _ => 0) (fun _ => (0 : Nat)) mshC9).2 0
        = some (List.range' (((mshC9.num_colored_cells.getD []).take 0).sum)
            ((mshC9.num_colored_cells.getD []).getD 0 0)) ∧
    (((renumber_by_color (fun _ => 0) (fun _ => (0 : Nat)) mshC9).2.cell_colors).getD
        []).getD ((((mshC9.num_colored_cells.getD []).take 0).sum) + 1) 0 = 0 :=
  ⟨(C7_cells_renumbered_by_color (fun _ => 0) (fun _ => 0) mshC9
      (by decide) (by decide) 0 (by decide)).1,
   (C7_cells_renumbered_by_color (fun _ => 0) (fun _ => 0) mshC9
      (by decide) (by decide) 0 (by decide)).2 1 (by decide)⟩
